import Mathlib

/-!
Verification of the post-planner core of `src/tg_content_app.py`.

Python strings are embedded as `List Char` (Python indexes and slices
strings by characters, as `List Char` does).  Pure helpers model the
exact string operations the source uses; the SQLite-backed record store
is modelled as an explicit state (`DB`) threaded through the operations.
-/

namespace TgPlanner

/-! ### Python string primitives -/

/-- Fuel-bounded body of `stripGDot`; `fuel ≥ length` suffices, and the
fuel drops at least as fast as the list. -/
def stripGDotAux : Nat → List Char → List Char
  | 0, l => l
  | _ + 1, [] => []
  | fuel + 1, c :: rest =>
    if c = ' ' then
      match rest with
      | c2 :: c3 :: rest3 =>
        if c2 = 'г' ∧ c3 = '.' then stripGDotAux fuel rest3
        else c :: stripGDotAux fuel rest
      | _ => c :: stripGDotAux fuel rest
    else c :: stripGDotAux fuel rest

/-- `str.replace(' г.', '')` from `add_post` (line 116): delete every
non-overlapping occurrence of the three characters `' '`, `'г'`, `'.'`,
scanning left to right. -/
def stripGDot (l : List Char) : List Char :=
  stripGDotAux l.length l

/-- Helper for `pySplit`: accumulate the current (reversed) token. -/
def wordsAux : List Char → List Char → List (List Char)
  | [], acc => if acc = [] then [] else [acc.reverse]
  | c :: rest, acc =>
    if c.isWhitespace then
      if acc = [] then wordsAux rest [] else acc.reverse :: wordsAux rest []
    else wordsAux rest (c :: acc)

/-- Python `str.split()` with no argument: split on runs of whitespace,
dropping empty tokens (line 117). -/
def pySplit (s : List Char) : List (List Char) :=
  wordsAux s []

/-- Python `str.strip()`: drop whitespace from both ends (line 116). -/
def pyStrip (s : List Char) : List Char :=
  ((s.dropWhile Char.isWhitespace).reverse.dropWhile Char.isWhitespace).reverse

/-- Value of an ASCII decimal digit. -/
def digitVal (c : Char) : Option Nat :=
  if '0' ≤ c ∧ c ≤ '9' then some (c.toNat - 48) else none

/-- Digits of a Python int literal after the first digit: ASCII digits with
single underscores allowed between digits. -/
def pyDigitsAux : List Char → Nat → Option Nat
  | [], acc => some acc
  | c :: rest, acc =>
    if c = '_' then
      match rest with
      | c2 :: rest2 =>
        match digitVal c2 with
        | some d => pyDigitsAux rest2 (acc * 10 + d)
        | none => none
      | [] => none
    else
      match digitVal c with
      | some d => pyDigitsAux rest (acc * 10 + d)
      | none => none

/-- Unsigned part of Python `int()`: at least one digit, underscores only
between digits. -/
def pyNat : List Char → Option Nat
  | [] => none
  | c :: rest =>
    match digitVal c with
    | some d => pyDigitsAux rest d
    | none => none

/-- Python `int()` applied to a whitespace-free token (lines 120, 122):
optional sign, then ASCII digits with single underscores between digits. -/
def pyInt : List Char → Option Int
  | [] => none
  | c :: rest =>
    if c = '+' then (pyNat rest).map Int.ofNat
    else if c = '-' then (pyNat rest).map fun n => -(n : Int)
    else (pyNat (c :: rest)).map Int.ofNat

/-! ### The month and weekday tables (lines 125-140) -/

/-- The fixed 12-entry Russian month dictionary `month_names`
(lines 125-128). -/
def month_names : List (List Char × Nat) :=
  [("января".data, 1), ("февраля".data, 2), ("марта".data, 3),
   ("апреля".data, 4), ("мая".data, 5), ("июня".data, 6),
   ("июля".data, 7), ("августа".data, 8), ("сентября".data, 9),
   ("октября".data, 10), ("ноября".data, 11), ("декабря".data, 12)]

/-- Dictionary lookup `month_names[month_str]` (membership test line 129). -/
def monthLookup (s : List Char) : Option Nat :=
  (month_names.find? fun p => p.1 = s).map Prod.snd

/-- Gregorian leap-year rule, as `datetime` uses. -/
def isLeap (y : Nat) : Bool :=
  y % 4 = 0 && (y % 100 ≠ 0 || y % 400 = 0)

/-- Days in a month of the proleptic Gregorian calendar. -/
def daysInMonth (y m : Nat) : Nat :=
  if m = 2 then (if isLeap y then 29 else 28)
  else if m = 4 ∨ m = 6 ∨ m = 9 ∨ m = 11 then 30
  else 31

/-- The range check `datetime(year, month, day)` performs (line 134):
year in `1..9999`, month in `1..12`, day in `1..days-in-month`. -/
def validDate (y : Int) (m : Nat) (d : Int) : Bool :=
  1 ≤ y && y ≤ 9999 && 1 ≤ m && m ≤ 12 &&
    1 ≤ d && d ≤ (daysInMonth y.toNat m : Int)

/-- A calendar date as `datetime(year, month, day)` holds it. -/
structure PDate where
  year : Nat
  month : Nat
  day : Nat
deriving DecidableEq

/-- Validity of a `PDate` (the invariant `datetime` enforces). -/
def PDate.valid (d : PDate) : Bool :=
  validDate (d.year : Int) d.month (d.day : Int)

/-- Day of week of a valid Gregorian date by Sakamoto's method;
`0` is Sunday, matching what `dt.strftime('%A')` reports (line 135). -/
def dayOfWeekNum (dt : PDate) : Nat :=
  let t := [0, 3, 2, 5, 0, 3, 5, 1, 4, 6, 2, 4]
  let y := if dt.month < 3 then dt.year - 1 else dt.year
  (y + y / 4 - y / 100 + y / 400 + t.getD (dt.month - 1) 0 + dt.day) % 7

/-- English weekday name, the value of `dt.strftime('%A')` (line 135). -/
def dayNameEn (n : Nat) : List Char :=
  match n with
  | 0 => "Sunday".data
  | 1 => "Monday".data
  | 2 => "Tuesday".data
  | 3 => "Wednesday".data
  | 4 => "Thursday".data
  | 5 => "Friday".data
  | _ => "Saturday".data

/-- The `days_ru` dictionary (lines 136-139). -/
def days_ru : List (List Char × List Char) :=
  [("Monday".data, "Понедельник".data), ("Tuesday".data, "Вторник".data),
   ("Wednesday".data, "Среда".data), ("Thursday".data, "Четверг".data),
   ("Friday".data, "Пятница".data), ("Saturday".data, "Суббота".data),
   ("Sunday".data, "Воскресенье".data)]

/-- `days_ru.get(day_of_week_en, 'Неизвестный день')` (line 140), including
the defensive fallback that is dead under correct date construction. -/
def weekdayLabel (dt : PDate) : List Char :=
  ((days_ru.find? fun p => p.1 = dayNameEn (dayOfWeekNum dt)).map
      Prod.snd).getD "Неизвестный день".data

/-! ### The date codec -/

/-- The token-level parsing stage of `add_post` (lines 116-131): strip
`' г.'`, split into exactly three tokens, convert day and year with
`int()`, look the month name up in `month_names`.  `none` models the
`ValueError` raised on those lines. -/
def parseTokens (date_str : List Char) : Option (Int × Nat × Int) :=
  match pySplit (pyStrip (stripGDot date_str)) with
  | [dStr, mStr, yStr] =>
    match pyInt dStr, monthLookup mStr, pyInt yStr with
    | some d, some m, some y => some (d, m, y)
    | _, _, _ => none
  | _ => none

/-- Full date parsing at insert time (lines 116-134): token parsing
followed by the `datetime(year, month, day)` range check.  `none` models
any exception reaching the `except` clause of `add_post`. -/
def parseLocalizedDate (date_str : List Char) : Option PDate :=
  match parseTokens date_str with
  | some (d, m, y) =>
    if validDate y m d then some ⟨y.toNat, m, d.toNat⟩ else none
  | none => none

/-- The ASCII digit character for `n % 10`. -/
def digitChar (n : Nat) : Char :=
  match n with
  | 0 => '0' | 1 => '1' | 2 => '2' | 3 => '3' | 4 => '4'
  | 5 => '5' | 6 => '6' | 7 => '7' | 8 => '8' | _ => '9'

/-- Fuel-bounded digit expansion; `fuel > n` suffices. -/
def natDigitsAux : Nat → Nat → List Char
  | 0, _ => []
  | fuel + 1, n =>
    if n < 10 then [digitChar n]
    else natDigitsAux fuel (n / 10) ++ [digitChar (n % 10)]

/-- Decimal digits of a natural number, most significant first. -/
def natDigits (n : Nat) : List Char :=
  natDigitsAux (n + 1) n

/-- `%d`: day of month zero-padded to two digits. -/
def pad2 (n : Nat) : List Char :=
  if n < 10 then '0' :: natDigits n else natDigits n

/-- Month names emitted by `strftime('%B')` in the locale the program
actually runs in: the source never calls `setlocale`, so CPython's
default C locale is in effect and `%B` yields the English month names —
exactly as `%A` on line 135 yields the English weekday names that the
`days_ru` dictionary translates.  Month numbers are 1-based;
out-of-range numbers never arise from a valid date. -/
def fmtMonthName (m : Nat) : List Char :=
  match m with
  | 1 => "January".data
  | 2 => "February".data
  | 3 => "March".data
  | 4 => "April".data
  | 5 => "May".data
  | 6 => "June".data
  | 7 => "July".data
  | 8 => "August".data
  | 9 => "September".data
  | 10 => "October".data
  | 11 => "November".data
  | _ => "December".data

/-- `new_date.strftime('%d %B %Y г.')` (lines 348-349): zero-padded
two-digit day, month name, year without padding, the literal suffix
`' г.'`. -/
def formatLocalizedDate (dt : PDate) : List Char :=
  pad2 dt.day ++ [' '] ++ fmtMonthName dt.month ++ [' '] ++
    natDigits dt.year ++ " г.".data

/-! ### The record store

The SQLite table `posts` is modelled as a list of rows plus the next
`AUTOINCREMENT` id.  Column values are TEXT, i.e. `List Char`. -/

/-- One row of the `posts` table (columns of `init_db`, lines 32-49). -/
structure Row where
  id : Nat
  date : List Char
  day_of_week : List Char
  time : List Char
  title : List Char
  content_type : List Char
  format : List Char
  rubrika : List Char
  description : List Char
  tz_text : List Char
  tz_visual : List Char
  deadline : List Char
  status : List Char
  published : List Char
deriving DecidableEq

/-- The persistent store: the `posts` table plus the id counter
(`AUTOINCREMENT` starts at 1 and never reuses ids). -/
structure DB where
  rows : List Row
  nextId : Nat
deriving DecidableEq

/-- `init_db` (lines 28-51): `CREATE TABLE IF NOT EXISTS` — creates an
empty table on a fresh medium (`none`), is a no-op on an existing one. -/
def init_db : Option DB → DB
  | none => { rows := [], nextId := 1 }
  | some s => s

/-- Default of the `status` column (line 46). -/
def defaultStatus : List Char := "Не готов".data

/-- Default of the `published` column (line 47). -/
def defaultPublished : List Char := "Нет".data

/-- The row `add_post` inserts (lines 145-149): the supplied eleven values
verbatim, the derived weekday label, and the two column defaults. -/
def newRow (s : DB)
    (date_str time_str title content_type format_str rubrika description
      tz_text tz_visual deadline : List Char) (dt : PDate) : Row :=
  { id := s.nextId, date := date_str, day_of_week := weekdayLabel dt,
    time := time_str, title := title, content_type := content_type,
    format := format_str, rubrika := rubrika, description := description,
    tz_text := tz_text, tz_visual := tz_visual, deadline := deadline,
    status := defaultStatus, published := defaultPublished }

/-- `add_post` (lines 112-157): parse and validate the date, compute the
weekday label, insert one row, return `True`; any exception is caught and
turned into `False` with the store untouched. -/
def add_post (s : DB)
    (date_str time_str title content_type format_str rubrika description
      tz_text tz_visual deadline : List Char) : Bool × DB :=
  match parseLocalizedDate date_str with
  | some dt =>
    (true,
      { rows := s.rows ++ [newRow s date_str time_str title content_type
          format_str rubrika description tz_text tz_visual deadline dt],
        nextId := s.nextId + 1 })
  | none => (false, s)

/-- The updatable non-id columns of `posts`. -/
inductive Col
  | date | day_of_week | time | title | content_type | format | rubrika
  | description | tz_text | tz_visual | deadline | status | published
deriving DecidableEq, Fintype

/-- `UPDATE posts SET <column> = ?` for one column, on one row. -/
def setCol (r : Row) (c : Col) (v : List Char) : Row :=
  match c with
  | .date => { r with date := v }
  | .day_of_week => { r with day_of_week := v }
  | .time => { r with time := v }
  | .title => { r with title := v }
  | .content_type => { r with content_type := v }
  | .format => { r with format := v }
  | .rubrika => { r with rubrika := v }
  | .description => { r with description := v }
  | .tz_text => { r with tz_text := v }
  | .tz_visual => { r with tz_visual := v }
  | .deadline => { r with deadline := v }
  | .status => { r with status := v }
  | .published => { r with published := v }

/-- Python `str.lower()` restricted to the alphabets that occur in the
column keys (ASCII and the basic Cyrillic block). -/
def pyLowerChar (c : Char) : Char :=
  if 'A' ≤ c ∧ c ≤ 'Z' then Char.ofNat (c.toNat + 32)
  else if 'А' ≤ c ∧ c ≤ 'Я' then Char.ofNat (c.toNat + 32)
  else if c = 'Ё' then 'ё'
  else c

/-- `col.lower().replace(' ', '_')`, the fallback of `col_map.get`
(line 167). -/
def colFallback (col : List Char) : List Char :=
  (col.map pyLowerChar).map fun c => if c = ' ' then '_' else c

/-- The `col_map` dictionary of `update_post` (lines 165-166). -/
def col_map : List (List Char × Col) :=
  [("Название".data, .title), ("Тип контента".data, .content_type),
   ("Формат".data, .format), ("Рубрика".data, .rubrika),
   ("Описание".data, .description), ("ТЗ(Текст)".data, .tz_text),
   ("ТЗ(Визуал)".data, .tz_visual), ("Дедлайн".data, .deadline)]

/-- Spellings of the updatable column names, for the fallback path (the
`id` column is never the target of an update in the program, so it is not
modelled as updatable). -/
def colNames : List (List Char × Col) :=
  [("date".data, .date), ("day_of_week".data, .day_of_week),
   ("time".data, .time), ("title".data, .title),
   ("content_type".data, .content_type), ("format".data, .format),
   ("rubrika".data, .rubrika), ("description".data, .description),
   ("tz_text".data, .tz_text), ("tz_visual".data, .tz_visual),
   ("deadline".data, .deadline), ("status".data, .status),
   ("published".data, .published)]

/-- `col_map.get(col, col.lower().replace(' ', '_'))` resolved against the
real column set (line 167-168); `none` models the uncaught SQLite error a
non-column name would raise. -/
def colMap (col : List Char) : Option Col :=
  match (col_map.find? fun p => p.1 = col).map Prod.snd with
  | some c => some c
  | none => (colNames.find? fun p => p.1 = colFallback col).map Prod.snd

/-- The update loop of `update_post` (lines 164-168): one `UPDATE`
statement per entry, in order. -/
def applyUpdates (row_id : Nat) :
    List (List Char × List Char) → List Row → Option (List Row)
  | [], rows => some rows
  | (col, v) :: rest, rows =>
    match colMap col with
    | some c =>
      applyUpdates row_id rest
        (rows.map fun r => if r.id = row_id then setCol r c v else r)
    | none => none

/-- `update_post` (lines 160-170). `none` models an uncaught exception
(unknown column); nothing is committed in that case. -/
def update_post (s : DB) (row_id : Nat)
    (updates : List (List Char × List Char)) : Option DB :=
  (applyUpdates row_id updates s.rows).map fun rs => { s with rows := rs }

/-- `update_status` (lines 173-179). -/
def update_status (s : DB) (row_id : Nat) (status : List Char) : DB :=
  { s with rows := s.rows.map fun r =>
      if r.id = row_id then { r with status := status } else r }

/-- `update_published` (lines 182-188). -/
def update_published (s : DB) (row_id : Nat) (published : List Char) : DB :=
  { s with rows := s.rows.map fun r =>
      if r.id = row_id then { r with published := published } else r }

/-- `delete_post` (lines 191-197). -/
def delete_post (s : DB) (row_id : Nat) : DB :=
  { s with rows := s.rows.filter fun r => r.id != row_id }

/-! ### `load_data` and its ordering -/

/-- SQLite TEXT comparison: bytewise on UTF-8, which coincides with
lexicographic comparison of code points. -/
def listLe : List Char → List Char → Bool
  | [], _ => true
  | _ :: _, [] => false
  | a :: as, b :: bs =>
    if a.toNat < b.toNat then true
    else if b.toNat < a.toNat then false
    else listLe as bs

/-- The `ORDER BY date, time` key order of `load_data` (line 100). -/
def keyLe (r1 r2 : Row) : Bool :=
  if r1.date = r2.date then listLe r1.time r2.time
  else listLe r1.date r2.date

/-- `keyLe` as a relation, for sorting. -/
def rowle (r1 r2 : Row) : Prop := keyLe r1 r2 = true

instance : DecidableRel rowle := fun r1 r2 =>
  inferInstanceAs (Decidable (keyLe r1 r2 = true))

/-- `load_data` (lines 97-109): `SELECT * FROM posts ORDER BY date, time`.
The column renaming that follows is presentation only; the result is the
full row set in key order. -/
def load_data (s : DB) : List Row :=
  List.insertionSort rowle s.rows

/-- Chronological strict order on parsed dates (year, month, day). -/
def dateLt (a b : PDate) : Bool :=
  a.year < b.year ||
    (a.year = b.year && (a.month < b.month ||
      (a.month = b.month && a.day < b.day)))

/-! ### The idea generator -/

/-- Text of the prompt before the inserted topic (line 58). -/
def promptPre : List Char :=
  "Предложи 3-5 идей для поста в TG-канале о музыке по теме \"".data

/-- Text of the prompt after the inserted topic (line 58). -/
def promptPost : List Char :=
  ("\". Укажи тип (информационный/вовлекающий/развлекательный), формат " ++
   "(интервью/новость/общение/видео/подкаст/мемы/туториал) и краткое " ++
   "описание. Нумеруй варианты. Ответь только списком идей.").data

/-- The f-string prompt of `generate_ideas` (line 58). -/
def promptOf (topic : List Char) : List Char :=
  promptPre ++ topic ++ promptPost

/-- Python `str.split(sep)` for a one-character separator: keeps empty
pieces, never returns an empty list. -/
def pySplitChar (sep : Char) : List Char → List (List Char)
  | [] => [[]]
  | c :: rest =>
    if c = sep then [] :: pySplitChar sep rest
    else
      match pySplitChar sep rest with
      | t :: ts => (c :: t) :: ts
      | [] => [[c]]

/-- Python `'\n'.join(list)`. -/
def joinNL : List (List Char) → List Char
  | [] => []
  | [l] => l
  | l :: rest => l ++ '\n' :: joinNL rest

/-- The fixed unavailability string (line 57). -/
def unavailableMsg : List Char :=
  "Генератор недоступен. Настрой HF_TOKEN в Secrets.".data

/-- The local `ideas_text` of `generate_ideas` (line 67):
`response[len(prompt):].strip()`. -/
def ideas_text_of (prompt response : List Char) : List Char :=
  pyStrip (response.drop prompt.length)

/-- The local `ideas_list` of `generate_ideas` (line 68):
`[line.strip() for line in ideas_text.split('\n') if line.strip()][:5]`. -/
def ideas_list_of (txt : List Char) : List (List Char) :=
  (((pySplitChar '\n' txt).map pyStrip).filter fun l => l ≠ []).take 5

/-- `generate_ideas` (lines 54-71).  `clientConfigured` models whether
`client` is non-`None`; `remote` models `client.text_generation`, either
returning the response text or raising (`Except.error` carries `str(e)`).
The function is total: no exception escapes. -/
def generate_ideas (clientConfigured : Bool)
    (remote : List Char → Except (List Char) (List Char))
    (topic : List Char) : List Char :=
  if !clientConfigured then unavailableMsg
  else
    match remote (promptOf topic) with
    | .error e => "Ошибка HF: ".data ++ e ++ ".".data
    | .ok response =>
      if ideas_list_of (ideas_text_of (promptOf topic) response) = []
      then "Ошибка генерации.".data
      else joinNL (ideas_list_of (ideas_text_of (promptOf topic) response))

/-! ### Reachable states

The operations as the program invokes them (their argument domains are
those of the call sites in the UI, lines 203, 236-250, 271-275, 324-356):
`update_status` is only ever passed `'Готов'` or `'Не готов'` (lines
236-239), `update_published` only `'Да'` or `'Нет'` (lines 242-245), and
the edit form submits exactly the eight `col_map` keys (lines 272-275). -/

/-- The eight field keys the edit form submits (lines 272-274). -/
def editKeys : List (List Char) :=
  ["Название".data, "Тип контента".data, "Формат".data, "Рубрика".data,
   "Описание".data, "ТЗ(Текст)".data, "ТЗ(Визуал)".data, "Дедлайн".data]

/-- The status value the toggle button writes (lines 236-239). -/
def statusToggle (b : Bool) : List Char :=
  if b then "Готов".data else "Не готов".data

/-- The published value the toggle button writes (lines 242-245). -/
def publishedToggle (b : Bool) : List Char :=
  if b then "Да".data else "Нет".data

/-- One store operation as the program issues it. -/
inductive Step : DB → DB → Prop
  | init (s : DB) : Step s (init_db (some s))
  | insert (s : DB)
      (a1 a2 a3 a4 a5 a6 a7 a8 a9 a10 : List Char) :
      Step s (add_post s a1 a2 a3 a4 a5 a6 a7 a8 a9 a10).2
  | update (s s' : DB) (row_id : Nat)
      (upd : List (List Char × List Char))
      (hkeys : ∀ kv ∈ upd, kv.1 ∈ editKeys)
      (h : update_post s row_id upd = some s') : Step s s'
  | setStatus (s : DB) (row_id : Nat) (b : Bool) :
      Step s (update_status s row_id (statusToggle b))
  | setPublished (s : DB) (row_id : Nat) (b : Bool) :
      Step s (update_published s row_id (publishedToggle b))
  | del (s : DB) (row_id : Nat) : Step s (delete_post s row_id)

/-- States reachable from a fresh medium by program operations. -/
inductive Reachable : DB → Prop
  | init : Reachable (init_db none)
  | step {s s' : DB} : Reachable s → Step s s' → Reachable s'

/-- The invariant of §3 of the spec: `status` and `published` stay within
their two-value enumerations. -/
def StoreInv (s : DB) : Prop :=
  ∀ r ∈ s.rows,
    (r.status = "Не готов".data ∨ r.status = "Готов".data) ∧
    (r.published = "Нет".data ∨ r.published = "Да".data)

/-! ### Statements of spec conditions, and concrete demonstration data -/

/-- The failure condition claimed by the spec for date parsing: token
count different from 3, day or year not an integer, or unknown month. -/
def claimFailCond (date_str : List Char) : Bool :=
  match pySplit (pyStrip (stripGDot date_str)) with
  | [dStr, mStr, yStr] =>
    (pyInt dStr).isNone || (pyInt yStr).isNone || (monthLookup mStr).isNone
  | _ => true

/-- The further failure condition the code enforces: the three tokens do
not form a valid calendar date. -/
def rangeFailCond (date_str : List Char) : Bool :=
  match parseTokens date_str with
  | some (d, m, y) => !validDate y m d
  | none => false

/-- A concrete row scheduled for 2 March 2024. -/
def rowMar2 : Row :=
  { id := 1, date := "02 марта 2024 г.".data, day_of_week := "Суббота".data,
    time := "10:00".data, title := "A".data, content_type := [], format := [],
    rubrika := [], description := [], tz_text := [], tz_visual := [],
    deadline := [], status := defaultStatus, published := defaultPublished }

/-- A concrete row scheduled for 10 January 2024. -/
def rowJan10 : Row :=
  { id := 2, date := "10 января 2024 г.".data, day_of_week := "Среда".data,
    time := "09:00".data, title := "B".data, content_type := [], format := [],
    rubrika := [], description := [], tz_text := [], tz_visual := [],
    deadline := [], status := defaultStatus, published := defaultPublished }

/-- A store holding the two demonstration rows. -/
def dbLexDemo : DB := { rows := [rowJan10, rowMar2], nextId := 3 }

/-! ## Order lemmas for `load_data` -/

theorem listLe_total : ∀ a b : List Char, listLe a b = true ∨ listLe b a = true
  | [], _ => Or.inl rfl
  | _ :: _, [] => Or.inr rfl
  | a :: as, b :: bs => by
    rcases Nat.lt_trichotomy a.toNat b.toNat with h | h | h
    · left; simp [listLe, h]
    · rcases listLe_total as bs with ih | ih
      · left; simp [listLe, h, ih, Nat.lt_irrefl]
      · right; simp [listLe, h, ih, Nat.lt_irrefl]
    · right; simp [listLe, h]

theorem listLe_trans :
    ∀ a b c : List Char,
      listLe a b = true → listLe b c = true → listLe a c = true
  | [], _, _, _, _ => rfl
  | _ :: _, [], _, h1, _ => by simp [listLe] at h1
  | _ :: _, _ :: _, [], _, h2 => by simp [listLe] at h2
  | a :: as, b :: bs, c :: cs, h1, h2 => by
    rcases Nat.lt_trichotomy a.toNat b.toNat with hab | hab | hab <;>
      rcases Nat.lt_trichotomy b.toNat c.toNat with hbc | hbc | hbc
    all_goals
      simp only [listLe] at h1 h2 ⊢
      first
        | (simp [show a.toNat < c.toNat by omega])
        | (simp [show ¬ b.toNat < c.toNat by omega,
            show c.toNat < b.toNat by omega] at h2)
        | (simp [show ¬ a.toNat < b.toNat by omega,
            show b.toNat < a.toNat by omega] at h1)
        | (simp [show ¬ a.toNat < c.toNat by omega,
            show ¬ c.toNat < a.toNat by omega,
            show ¬ a.toNat < b.toNat by omega,
            show ¬ b.toNat < a.toNat by omega,
            show ¬ b.toNat < c.toNat by omega,
            show ¬ c.toNat < b.toNat by omega] at h1 h2 ⊢
           ;
           exact listLe_trans as bs cs h1 h2)

theorem char_toNat_inj {a b : Char} (h : a.toNat = b.toNat) : a = b := by
  have : a.val = b.val := by
    simp only [Char.toNat] at h
    exact UInt32.toNat.inj h
  exact Char.ext this

theorem listLe_antisymm :
    ∀ a b : List Char, listLe a b = true → listLe b a = true → a = b
  | [], [], _, _ => rfl
  | [], _ :: _, _, h2 => by simp [listLe] at h2
  | _ :: _, [], h1, _ => by simp [listLe] at h1
  | a :: as, b :: bs, h1, h2 => by
    rcases Nat.lt_trichotomy a.toNat b.toNat with hab | hab | hab
    · simp [listLe, show ¬ b.toNat < a.toNat by omega, hab] at h2
    · simp only [listLe, show ¬ a.toNat < b.toNat by omega,
        show ¬ b.toNat < a.toNat by omega, if_false] at h1 h2
      rw [char_toNat_inj hab, listLe_antisymm as bs h1 h2]
    · simp [listLe, show ¬ a.toNat < b.toNat by omega, hab] at h1

theorem keyLe_total (r1 r2 : Row) : keyLe r1 r2 = true ∨ keyLe r2 r1 = true := by
  unfold keyLe
  by_cases h : r1.date = r2.date
  · rw [if_pos h, if_pos h.symm]
    exact listLe_total _ _
  · rw [if_neg h, if_neg fun e => h e.symm]
    exact listLe_total _ _

theorem keyLe_trans (r1 r2 r3 : Row)
    (h1 : keyLe r1 r2 = true) (h2 : keyLe r2 r3 = true) :
    keyLe r1 r3 = true := by
  unfold keyLe at h1 h2 ⊢
  by_cases e12 : r1.date = r2.date <;> by_cases e23 : r2.date = r3.date
  · rw [if_pos e12] at h1
    rw [if_pos e23] at h2
    rw [if_pos (e12.trans e23)]
    exact listLe_trans _ _ _ h1 h2
  · have e13 : ¬ r1.date = r3.date := fun e => e23 (e12.symm.trans e)
    rw [if_neg e23] at h2
    rw [if_neg e13, e12]
    exact h2
  · have e13 : ¬ r1.date = r3.date := fun e => e12 (e.trans e23.symm)
    rw [if_neg e12] at h1
    rw [if_neg e13, ← e23]
    exact h1
  · rw [if_neg e12] at h1
    rw [if_neg e23] at h2
    by_cases e13 : r1.date = r3.date
    · have h2' : listLe r2.date r1.date = true := by rw [e13]; exact h2
      exact absurd (listLe_antisymm _ _ h1 h2') e12
    · rw [if_neg e13]
      exact listLe_trans _ _ _ h1 h2

instance : IsTotal Row rowle := ⟨keyLe_total⟩

instance : IsTrans Row rowle := ⟨keyLe_trans⟩

/-! ## Digit and number-formatting lemmas -/

theorem digitChar_facts :
    ∀ k < 10, digitVal (digitChar k) = some k ∧
      (digitChar k).toNat - 48 = k ∧
      (digitChar k).isWhitespace = false ∧
      digitChar k ≠ ' ' ∧ digitChar k ≠ 'г' ∧ digitChar k ≠ '_' ∧
      digitChar k ≠ '+' ∧ digitChar k ≠ '-' := by decide

theorem natDigitsAux_spec :
    ∀ fuel n, n < fuel →
      natDigitsAux fuel n ≠ [] ∧
      (∀ c ∈ natDigitsAux fuel n, ∃ k, k < 10 ∧ c = digitChar k) ∧
      ∀ a, (natDigitsAux fuel n).foldl (fun acc c => acc * 10 + (c.toNat - 48)) a
          = a * 10 ^ (natDigitsAux fuel n).length + n := by
  intro fuel
  induction fuel with
  | zero => intro n hn; omega
  | succ fuel ih =>
    intro n hn
    by_cases h10 : n < 10
    · refine ⟨by simp [natDigitsAux, h10], ?_, ?_⟩
      · intro c hc
        simp only [natDigitsAux, if_pos h10, List.mem_singleton] at hc
        exact ⟨n, h10, hc⟩
      · intro a
        simp only [natDigitsAux, if_pos h10, List.foldl_cons, List.foldl_nil,
          List.length_singleton, pow_one]
        rw [(digitChar_facts n h10).2.1]
    · have hdiv : n / 10 < fuel := by
        have := Nat.div_lt_self (by omega : 0 < n) (by omega : 1 < 10)
        omega
      obtain ⟨hne, hdig, hfold⟩ := ih (n / 10) hdiv
      simp only [natDigitsAux, if_neg h10]
      refine ⟨by simp, ?_, ?_⟩
      · intro c hc
        rcases List.mem_append.mp hc with hc | hc
        · exact hdig c hc
        · simp only [List.mem_singleton] at hc
          exact ⟨n % 10, by omega, hc⟩
      · intro a
        rw [List.foldl_append, hfold a, List.foldl_cons, List.foldl_nil,
          (digitChar_facts (n % 10) (by omega)).2.1,
          List.length_append, List.length_singleton, pow_succ, ← mul_assoc]
        generalize a * 10 ^ (natDigitsAux fuel (n / 10)).length = Q
        omega

theorem natDigits_nonempty (n : Nat) : natDigits n ≠ [] :=
  (natDigitsAux_spec (n + 1) n (by omega)).1

theorem natDigits_all_digits (n : Nat) :
    ∀ c ∈ natDigits n, ∃ k, k < 10 ∧ c = digitChar k :=
  (natDigitsAux_spec (n + 1) n (by omega)).2.1

theorem natDigits_foldl (n : Nat) :
    (natDigits n).foldl (fun acc c => acc * 10 + (c.toNat - 48)) 0 = n := by
  have := (natDigitsAux_spec (n + 1) n (by omega)).2.2 0
  simpa using this

theorem pad2_all_digits (n : Nat) :
    ∀ c ∈ pad2 n, ∃ k, k < 10 ∧ c = digitChar k := by
  intro c hc
  unfold pad2 at hc
  by_cases h : n < 10
  · rw [if_pos h] at hc
    rcases List.mem_cons.mp hc with hc | hc
    · exact ⟨0, by omega, hc⟩
    · exact natDigits_all_digits n c hc
  · rw [if_neg h] at hc
    exact natDigits_all_digits n c hc

theorem pyDigitsAux_cons_ne (c : Char) (hc : c ≠ '_') (rest : List Char)
    (acc : Nat) :
    pyDigitsAux (c :: rest) acc =
      match digitVal c with
      | some d => pyDigitsAux rest (acc * 10 + d)
      | none => none := by
  rw [pyDigitsAux.eq_def]
  simp only [if_neg hc]

theorem pyDigitsAux_digits :
    ∀ l, (∀ c ∈ l, ∃ k, k < 10 ∧ c = digitChar k) → ∀ acc,
      pyDigitsAux l acc =
        some (l.foldl (fun a c => a * 10 + (c.toNat - 48)) acc) := by
  intro l
  induction l with
  | nil => intro _ acc; rfl
  | cons c rest ih =>
    intro hdig acc
    obtain ⟨k, hk, hck⟩ := hdig c (by simp)
    have hne : c ≠ '_' := hck ▸ (digitChar_facts k hk).2.2.2.2.2.1
    rw [pyDigitsAux_cons_ne c hne rest acc]
    have hval : digitVal c = some k := hck ▸ (digitChar_facts k hk).1
    rw [hval]
    simp only [List.foldl_cons]
    have hvk : c.toNat - 48 = k := hck ▸ (digitChar_facts k hk).2.1
    rw [hvk]
    exact ih (fun c2 hc2 => hdig c2 (by simp [hc2])) (acc * 10 + k)

theorem pyNat_digits (l : List Char)
    (hne : l ≠ []) (hdig : ∀ c ∈ l, ∃ k, k < 10 ∧ c = digitChar k) :
    pyNat l = some (l.foldl (fun a c => a * 10 + (c.toNat - 48)) 0) := by
  cases l with
  | nil => exact absurd rfl hne
  | cons c rest =>
    obtain ⟨k, hk, hck⟩ := hdig c (by simp)
    have hval : digitVal c = some k := hck ▸ (digitChar_facts k hk).1
    have hvk : c.toNat - 48 = k := hck ▸ (digitChar_facts k hk).2.1
    simp only [pyNat, hval]
    rw [pyDigitsAux_digits rest (fun c2 hc2 => hdig c2 (by simp [hc2])) k]
    simp only [List.foldl_cons, Nat.zero_mul, Nat.zero_add, hvk]

theorem pyInt_cons_ne (c : Char) (h1 : c ≠ '+') (h2 : c ≠ '-')
    (rest : List Char) :
    pyInt (c :: rest) = (pyNat (c :: rest)).map Int.ofNat := by
  simp only [pyInt, if_neg h1, if_neg h2]

theorem pyNat_natDigits (n : Nat) : pyNat (natDigits n) = some n := by
  rw [pyNat_digits (natDigits n) (natDigits_nonempty n) (natDigits_all_digits n),
    natDigits_foldl]

theorem pyNat_pad2 (n : Nat) : pyNat (pad2 n) = some n := by
  unfold pad2
  by_cases h : n < 10
  · rw [if_pos h]
    have hdig : ∀ c ∈ '0' :: natDigits n, ∃ k, k < 10 ∧ c = digitChar k := by
      intro c hc
      rcases List.mem_cons.mp hc with hc | hc
      · exact ⟨0, by omega, hc⟩
      · exact natDigits_all_digits n c hc
    rw [pyNat_digits _ (by simp) hdig]
    simp only [List.foldl_cons]
    have : ('0'.toNat - 48) = 0 := by decide
    rw [this]
    simpa using natDigits_foldl n
  · rw [if_neg h]
    exact pyNat_natDigits n

theorem head_natDigits_not_sign (n : Nat) :
    ∀ c rest, natDigits n = c :: rest → c ≠ '+' ∧ c ≠ '-' := by
  intro c rest heq
  have hc : c ∈ natDigits n := by rw [heq]; simp
  obtain ⟨k, hk, hck⟩ := natDigits_all_digits n c hc
  exact ⟨hck ▸ (digitChar_facts k hk).2.2.2.2.2.2.1,
    hck ▸ (digitChar_facts k hk).2.2.2.2.2.2.2⟩

theorem pyInt_natDigits (n : Nat) : pyInt (natDigits n) = some (n : Int) := by
  obtain ⟨c, rest, heq⟩ : ∃ c rest, natDigits n = c :: rest := by
    cases h : natDigits n with
    | nil => exact absurd h (natDigits_nonempty n)
    | cons c rest => exact ⟨c, rest, rfl⟩
  obtain ⟨h1, h2⟩ := head_natDigits_not_sign n c rest heq
  rw [heq, pyInt_cons_ne c h1 h2, ← heq, pyNat_natDigits]
  rfl

theorem pyInt_pad2 (n : Nat) : pyInt (pad2 n) = some (n : Int) := by
  unfold pad2
  by_cases h : n < 10
  · rw [if_pos h, pyInt_cons_ne '0' (by decide) (by decide)]
    have := pyNat_pad2 n
    unfold pad2 at this
    rw [if_pos h] at this
    rw [this]
    rfl
  · rw [if_neg h]
    exact pyInt_natDigits n

theorem natDigits_ne_space (n : Nat) : ∀ c ∈ natDigits n, c ≠ ' ' := by
  intro c hc
  obtain ⟨k, hk, hck⟩ := natDigits_all_digits n c hc
  exact hck ▸ (digitChar_facts k hk).2.2.2.1

theorem natDigits_not_ws (n : Nat) :
    ∀ c ∈ natDigits n, c.isWhitespace = false := by
  intro c hc
  obtain ⟨k, hk, hck⟩ := natDigits_all_digits n c hc
  exact hck ▸ (digitChar_facts k hk).2.2.1

theorem pad2_ne_space (n : Nat) : ∀ c ∈ pad2 n, c ≠ ' ' := by
  intro c hc
  obtain ⟨k, hk, hck⟩ := pad2_all_digits n c hc
  exact hck ▸ (digitChar_facts k hk).2.2.2.1

theorem pad2_not_ws (n : Nat) : ∀ c ∈ pad2 n, c.isWhitespace = false := by
  intro c hc
  obtain ⟨k, hk, hck⟩ := pad2_all_digits n c hc
  exact hck ▸ (digitChar_facts k hk).2.2.1

theorem pad2_nonempty (n : Nat) : pad2 n ≠ [] := by
  unfold pad2
  by_cases h : n < 10
  · rw [if_pos h]; simp
  · rw [if_neg h]; exact natDigits_nonempty n

/-! ## Lemmas about `stripGDot`, `pyStrip` and `pySplit` -/

theorem stripGDot_cons_ne_space (c : Char) (hc : c ≠ ' ') (rest : List Char) :
    stripGDot (c :: rest) = c :: stripGDot rest := by
  show stripGDotAux (c :: rest).length (c :: rest) = c :: stripGDot rest
  simp only [List.length_cons]
  simp only [stripGDotAux, if_neg hc]
  rfl

theorem stripGDot_space_cons_ne (c2 : Char) (hc2 : c2 ≠ 'г') (rest : List Char) :
    stripGDot (' ' :: c2 :: rest) = ' ' :: stripGDot (c2 :: rest) := by
  cases rest with
  | nil => rfl
  | cons c3 rest3 =>
    show stripGDotAux (' ' :: c2 :: c3 :: rest3).length (' ' :: c2 :: c3 :: rest3)
        = ' ' :: stripGDot (c2 :: c3 :: rest3)
    simp only [List.length_cons]
    simp only [stripGDotAux, if_pos rfl]
    rw [if_neg (show ¬(c2 = 'г' ∧ c3 = '.') from fun h => hc2 h.1)]
    rfl

theorem stripGDot_space (X : List Char) (hhead : X.head? ≠ some 'г') :
    stripGDot (' ' :: X) = ' ' :: stripGDot X := by
  cases X with
  | nil => rfl
  | cons c2 rest =>
    exact stripGDot_space_cons_ne c2 (fun e => hhead (by rw [e]; rfl)) rest

theorem stripGDot_append_nonspace (xs : List Char)
    (hxs : ∀ c ∈ xs, c ≠ ' ') (rest : List Char) :
    stripGDot (xs ++ rest) = xs ++ stripGDot rest := by
  induction xs with
  | nil => simp
  | cons c t ih =>
    simp only [List.cons_append]
    rw [stripGDot_cons_ne_space c (hxs c (by simp)) _,
      ih fun c2 h => hxs c2 (by simp [h])]

theorem pyStrip_eq_self (l : List Char)
    (h1 : ∀ c, l.head? = some c → c.isWhitespace = false)
    (h2 : ∀ c, l.getLast? = some c → c.isWhitespace = false) :
    pyStrip l = l := by
  unfold pyStrip
  have e1 : l.dropWhile Char.isWhitespace = l := by
    cases l with
    | nil => rfl
    | cons c rest =>
      have hc := h1 c rfl
      simp [List.dropWhile_cons, hc]
  rw [e1]
  have e2 : l.reverse.dropWhile Char.isWhitespace = l.reverse := by
    cases hr : l.reverse with
    | nil => rfl
    | cons c rest =>
      have : l.getLast? = some c := by
        rw [← List.head?_reverse, hr]; rfl
      have hc := h2 c this
      simp [List.dropWhile_cons, hc]
  rw [e2, List.reverse_reverse]

theorem wordsAux_token :
    ∀ tok : List Char, (∀ c ∈ tok, c.isWhitespace = false) →
      ∀ rest acc, wordsAux (tok ++ rest) acc = wordsAux rest (tok.reverse ++ acc)
  | [], _, rest, acc => by simp
  | c :: t, htok, rest, acc => by
    have hc : c.isWhitespace = false := htok c (by simp)
    simp only [List.cons_append, wordsAux, hc, Bool.false_eq_true, if_false,
      List.append_eq]
    rw [wordsAux_token t (fun c2 h2 => htok c2 (by simp [h2])) rest (c :: acc)]
    simp

theorem wordsAux_ws (c : Char) (hc : c.isWhitespace = true)
    (rest acc : List Char) :
    wordsAux (c :: rest) acc =
      if acc = [] then wordsAux rest [] else acc.reverse :: wordsAux rest [] := by
  simp [wordsAux, hc]

theorem pySplit_three (t1 t2 t3 : List Char)
    (h1 : t1 ≠ []) (h2 : t2 ≠ []) (h3 : t3 ≠ [])
    (hw1 : ∀ c ∈ t1, c.isWhitespace = false)
    (hw2 : ∀ c ∈ t2, c.isWhitespace = false)
    (hw3 : ∀ c ∈ t3, c.isWhitespace = false) :
    pySplit (t1 ++ ' ' :: (t2 ++ ' ' :: t3)) = [t1, t2, t3] := by
  unfold pySplit
  rw [wordsAux_token t1 hw1, wordsAux_ws ' ' (by decide),
    if_neg (by simp [h1]), wordsAux_token t2 hw2, wordsAux_ws ' ' (by decide),
    if_neg (by simp [h2])]
  have e3 : wordsAux t3 [] = [t3] := by
    conv_lhs => rw [← List.append_nil t3]
    rw [wordsAux_token t3 hw3]
    simp [wordsAux, h3]
  rw [e3]
  simp [h1, h2]

/-! ## The parse-format round trip -/

theorem mem_of_getLast_some {l : List Char} {a : Char}
    (h : l.getLast? = some a) : a ∈ l := by
  obtain ⟨ys, rfl⟩ := List.getLast?_eq_some_iff.mp h
  simp

theorem format_tokens_split (d y : Nat) (mon : List Char)
    (hmon_ne : mon ≠ [])
    (hmon_nsp : ∀ c ∈ mon, c ≠ ' ')
    (hmon_nws : ∀ c ∈ mon, c.isWhitespace = false)
    (hmon_head : mon.head? ≠ some 'г') :
    pySplit (pyStrip (stripGDot
      (pad2 d ++ [' '] ++ mon ++ [' '] ++ natDigits y ++ " г.".data)))
      = [pad2 d, mon, natDigits y] := by
  obtain ⟨mc, mrest, hmon⟩ : ∃ mc mrest, mon = mc :: mrest := by
    cases mon with
    | nil => exact absurd rfl hmon_ne
    | cons mc mrest => exact ⟨mc, mrest, rfl⟩
  obtain ⟨yc, yrest, hy⟩ : ∃ yc yrest, natDigits y = yc :: yrest := by
    cases hh : natDigits y with
    | nil => exact absurd hh (natDigits_nonempty y)
    | cons yc yrest => exact ⟨yc, yrest, rfl⟩
  have hshape : pad2 d ++ [' '] ++ mon ++ [' '] ++ natDigits y ++ " г.".data
      = pad2 d ++ (' ' :: (mon ++ (' ' :: (natDigits y ++ [' ', 'г', '.'])))) := by
    show _ = pad2 d ++ ([' '] ++ (mon ++ ([' '] ++ (natDigits y ++ " г.".data))))
    simp [List.append_assoc]
  have hmc : mc ≠ 'г' := by
    intro e
    exact hmon_head (by rw [hmon, e]; rfl)
  have hyc : yc ≠ 'г' := by
    have : yc ∈ natDigits y := by rw [hy]; simp
    obtain ⟨k, hk, hck⟩ := natDigits_all_digits y yc this
    exact hck ▸ (digitChar_facts k hk).2.2.2.2.1
  have hhA : (mon ++ (' ' :: (natDigits y ++ [' ', 'г', '.']))).head? ≠ some 'г' := by
    rw [hmon]
    simp only [List.cons_append, List.head?_cons]
    exact fun e => hmc (Option.some.inj e)
  have hhB : (natDigits y ++ [' ', 'г', '.']).head? ≠ some 'г' := by
    rw [hy]
    simp only [List.cons_append, List.head?_cons]
    exact fun e => hyc (Option.some.inj e)
  have hstrip : stripGDot (pad2 d ++ (' ' :: (mon ++ (' ' :: (natDigits y ++ [' ', 'г', '.'])))))
      = pad2 d ++ (' ' :: (mon ++ (' ' :: natDigits y))) := by
    rw [stripGDot_append_nonspace (pad2 d) (pad2_ne_space d)]
    congr 1
    rw [stripGDot_space _ hhA]
    congr 1
    rw [stripGDot_append_nonspace mon hmon_nsp]
    congr 1
    rw [stripGDot_space _ hhB]
    congr 1
    rw [stripGDot_append_nonspace (natDigits y) (natDigits_ne_space y)]
    rw [show stripGDot [' ', 'г', '.'] = [] by decide]
    simp
  have hcleanLast : (pad2 d ++ (' ' :: (mon ++ (' ' :: natDigits y)))).getLast?
      = (natDigits y).getLast? := by
    rw [List.getLast?_append]
    have e1 : (' ' :: (mon ++ (' ' :: natDigits y))).getLast?
        = (natDigits y).getLast? := by
      show ([' '] ++ (mon ++ ([' '] ++ natDigits y))).getLast? = _
      rw [List.getLast?_append, List.getLast?_append, List.getLast?_append]
      cases hl : (natDigits y).getLast? with
      | none =>
        exact absurd (List.getLast?_eq_none_iff.mp hl) (natDigits_nonempty y)
      | some a => rfl
    rw [e1]
    cases hl : (natDigits y).getLast? with
    | none =>
      exact absurd (List.getLast?_eq_none_iff.mp hl) (natDigits_nonempty y)
    | some a => rfl
  have hpystrip : pyStrip (pad2 d ++ (' ' :: (mon ++ (' ' :: natDigits y))))
      = pad2 d ++ (' ' :: (mon ++ (' ' :: natDigits y))) := by
    apply pyStrip_eq_self
    · intro c hc
      obtain ⟨pc, prest, hp⟩ : ∃ pc prest, pad2 d = pc :: prest := by
        cases hh : pad2 d with
        | nil => exact absurd hh (pad2_nonempty d)
        | cons pc prest => exact ⟨pc, prest, rfl⟩
      rw [hp] at hc
      simp only [List.cons_append, List.head?_cons, Option.some.injEq] at hc
      subst hc
      exact pad2_not_ws d pc (by rw [hp]; simp)
    · intro c hc
      rw [hcleanLast] at hc
      exact natDigits_not_ws y c (mem_of_getLast_some hc)
  have hsplit : pySplit (pad2 d ++ (' ' :: (mon ++ (' ' :: natDigits y))))
      = [pad2 d, mon, natDigits y] :=
    pySplit_three _ _ _ (pad2_nonempty d) hmon_ne (natDigits_nonempty y)
      (pad2_not_ws d) hmon_nws (natDigits_not_ws y)
  rw [hshape, hstrip, hpystrip, hsplit]

theorem parseTokens_of_bad_month (d y : Nat) (mon : List Char)
    (hmon_ne : mon ≠ [])
    (hmon_nsp : ∀ c ∈ mon, c ≠ ' ')
    (hmon_nws : ∀ c ∈ mon, c.isWhitespace = false)
    (hmon_head : mon.head? ≠ some 'г')
    (hlook : monthLookup mon = none) :
    parseTokens (pad2 d ++ [' '] ++ mon ++ [' '] ++ natDigits y ++ " г.".data)
      = none := by
  unfold parseTokens
  rw [format_tokens_split d y mon hmon_ne hmon_nsp hmon_nws hmon_head]
  simp only []
  rw [pyInt_pad2, hlook, pyInt_natDigits]

theorem parseTokens_format_none (y m d : Nat) (hm1 : 1 ≤ m) (hm2 : m ≤ 12) :
    parseTokens (formatLocalizedDate ⟨y, m, d⟩) = none := by
  show parseTokens
      (pad2 d ++ [' '] ++ fmtMonthName m ++ [' '] ++ natDigits y ++ " г.".data)
    = none
  interval_cases m <;>
    exact parseTokens_of_bad_month d y _ (by decide) (by decide) (by decide)
      (by decide) (by decide)

theorem format_no_reparse (dt : PDate) (h : dt.valid = true) :
    parseLocalizedDate (formatLocalizedDate dt) = none := by
  obtain ⟨y, m, d⟩ := dt
  have h' := h
  simp only [PDate.valid, validDate, Bool.and_eq_true, decide_eq_true_eq] at h'
  obtain ⟨⟨⟨⟨⟨h1, h2⟩, h3⟩, h4⟩, h5⟩, h6⟩ := h'
  unfold parseLocalizedDate
  rw [parseTokens_format_none y m d h3 h4]

/-! ## Store operation lemmas -/

theorem setCol_keeps (c : Col) (hc1 : c ≠ Col.status) (hc2 : c ≠ Col.published)
    (r : Row) (v : List Char) :
    (setCol r c v).status = r.status ∧ (setCol r c v).published = r.published := by
  cases c <;> first
    | exact ⟨rfl, rfl⟩
    | exact absurd rfl hc1
    | exact absurd rfl hc2

theorem colMap_editKeys :
    ∀ k ∈ editKeys, ∃ c, colMap k = some c ∧
      c ≠ Col.status ∧ c ≠ Col.published := by decide

theorem applyUpdates_status_pub (row_id : Nat) :
    ∀ (upd : List (List Char × List Char)) (rows rows' : List Row),
      (∀ kv ∈ upd, kv.1 ∈ editKeys) →
      applyUpdates row_id upd rows = some rows' →
      ∀ r' ∈ rows', ∃ r ∈ rows, r'.status = r.status ∧ r'.published = r.published := by
  intro upd
  induction upd with
  | nil =>
    intro rows rows' _ happ r' hr'
    simp only [applyUpdates, Option.some.injEq] at happ
    subst happ
    exact ⟨r', hr', rfl, rfl⟩
  | cons kv rest ih =>
    intro rows rows' hkeys happ r' hr'
    obtain ⟨col, v⟩ := kv
    obtain ⟨c, hc, hcs, hcp⟩ := colMap_editKeys col (hkeys (col, v) (by simp))
    rw [applyUpdates.eq_def] at happ
    simp only [hc] at happ
    obtain ⟨r2, hr2, e1, e2⟩ :=
      ih _ rows' (fun kv2 h2 => hkeys kv2 (by simp [h2])) happ r' hr'
    obtain ⟨r0, hr0, rfl⟩ := List.mem_map.mp hr2
    by_cases hid : r0.id = row_id
    · refine ⟨r0, hr0, ?_, ?_⟩
      · rw [e1, if_pos hid]; exact (setCol_keeps c hcs hcp r0 v).1
      · rw [e2, if_pos hid]; exact (setCol_keeps c hcs hcp r0 v).2
    · refine ⟨r0, hr0, ?_, ?_⟩
      · rw [e1, if_neg hid]
      · rw [e2, if_neg hid]

theorem map_noop (row_id : Nat) (f : Row → Row) (rows : List Row)
    (h : ∀ r ∈ rows, r.id ≠ row_id) :
    (rows.map fun r => if r.id = row_id then f r else r) = rows := by
  induction rows with
  | nil => rfl
  | cons r t ih =>
    simp only [List.map_cons]
    rw [if_neg (h r (by simp)), ih fun r2 h2 => h r2 (by simp [h2])]

theorem applyUpdates_missing (row_id : Nat) :
    ∀ (upd : List (List Char × List Char)) (rows : List Row),
      (∀ r ∈ rows, r.id ≠ row_id) →
      (∀ kv ∈ upd, (colMap kv.1).isSome = true) →
      applyUpdates row_id upd rows = some rows := by
  intro upd
  induction upd with
  | nil => intro rows _ _; rfl
  | cons kv rest ih =>
    intro rows hids hkeys
    obtain ⟨col, v⟩ := kv
    obtain ⟨c, hc⟩ := Option.isSome_iff_exists.mp (hkeys (col, v) (by simp))
    rw [applyUpdates.eq_def]
    simp only [hc]
    rw [map_noop row_id _ rows hids]
    exact ih rows hids fun kv2 h2 => hkeys kv2 (by simp [h2])

theorem update_post_missing (s : DB) (row_id : Nat)
    (upd : List (List Char × List Char))
    (hids : ∀ r ∈ s.rows, r.id ≠ row_id)
    (hkeys : ∀ kv ∈ upd, (colMap kv.1).isSome = true) :
    update_post s row_id upd = some s := by
  unfold update_post
  rw [applyUpdates_missing row_id upd s.rows hids hkeys]
  rfl

theorem update_status_missing (s : DB) (row_id : Nat) (v : List Char)
    (hids : ∀ r ∈ s.rows, r.id ≠ row_id) :
    update_status s row_id v = s := by
  unfold update_status
  rw [map_noop row_id _ s.rows hids]

theorem update_published_missing (s : DB) (row_id : Nat) (v : List Char)
    (hids : ∀ r ∈ s.rows, r.id ≠ row_id) :
    update_published s row_id v = s := by
  unfold update_published
  rw [map_noop row_id _ s.rows hids]

theorem delete_post_missing (s : DB) (row_id : Nat)
    (hids : ∀ r ∈ s.rows, r.id ≠ row_id) :
    delete_post s row_id = s := by
  unfold delete_post
  have hfil : ∀ rows : List Row, (∀ r ∈ rows, r.id ≠ row_id) →
      rows.filter (fun r => r.id != row_id) = rows := by
    intro rows hr
    induction rows with
    | nil => rfl
    | cons r t ih =>
      simp only [List.filter_cons]
      rw [if_pos (by simp [hr r (by simp)]),
        ih fun r2 h2 => hr r2 (by simp [h2])]
  rw [hfil s.rows hids]

theorem forall₂_map_self {α : Type} {p : α → α → Prop} (f : α → α)
    (h : ∀ a, p a (f a)) : ∀ l : List α, List.Forall₂ p l (l.map f)
  | [] => List.Forall₂.nil
  | a :: t => List.Forall₂.cons (h a) (forall₂_map_self f h t)

theorem load_data_perm (s : DB) : List.Perm (load_data s) s.rows :=
  List.perm_insertionSort rowle s.rows

theorem load_data_sorted (s : DB) : (load_data s).Sorted rowle :=
  List.sorted_insertionSort rowle s.rows

theorem add_post_success (s : DB)
    (a1 a2 a3 a4 a5 a6 a7 a8 a9 a10 : List Char) (dt : PDate)
    (h : parseLocalizedDate a1 = some dt) :
    add_post s a1 a2 a3 a4 a5 a6 a7 a8 a9 a10 =
      (true,
        { rows := s.rows ++ [newRow s a1 a2 a3 a4 a5 a6 a7 a8 a9 a10 dt],
          nextId := s.nextId + 1 }) := by
  unfold add_post
  rw [h]

theorem add_post_fail (s : DB)
    (a1 a2 a3 a4 a5 a6 a7 a8 a9 a10 : List Char)
    (h : parseLocalizedDate a1 = none) :
    add_post s a1 a2 a3 a4 a5 a6 a7 a8 a9 a10 = (false, s) := by
  unfold add_post
  rw [h]

/-! ## Lemmas for the idea generator -/

theorem mem_pyStrip {c : Char} {l : List Char} (h : c ∈ pyStrip l) : c ∈ l := by
  unfold pyStrip at h
  have h1 := List.mem_reverse.mp h
  have h2 := (List.dropWhile_sublist (l := (l.dropWhile Char.isWhitespace).reverse)
    (p := Char.isWhitespace)).subset h1
  have h3 := List.mem_reverse.mp h2
  exact (List.dropWhile_sublist (l := l) (p := Char.isWhitespace)).subset h3

theorem pySplitChar_no_sep (sep : Char) :
    ∀ l : List Char, ∀ t ∈ pySplitChar sep l, sep ∉ t := by
  intro l
  induction l with
  | nil =>
    intro t ht
    simp only [pySplitChar, List.mem_singleton] at ht
    subst ht
    simp
  | cons c rest ih =>
    intro t ht
    by_cases hc : c = sep
    · simp only [pySplitChar, if_pos hc] at ht
      rcases List.mem_cons.mp ht with rfl | ht2
      · simp
      · exact ih t ht2
    · simp only [pySplitChar, if_neg hc] at ht
      cases hsp : pySplitChar sep rest with
      | nil =>
        rw [hsp] at ht
        simp only [List.mem_singleton] at ht
        subst ht
        simp only [List.mem_singleton]
        exact fun e => hc e.symm
      | cons t0 ts =>
        rw [hsp] at ht
        rcases List.mem_cons.mp ht with rfl | ht2
        · intro hmem
          rcases List.mem_cons.mp hmem with e | hmem2
          · exact hc e.symm
          · exact ih t0 (by rw [hsp]; simp) hmem2
        · exact ih t (by rw [hsp]; simp [ht2])

theorem pySplitChar_single (sep : Char) :
    ∀ l : List Char, sep ∉ l → pySplitChar sep l = [l] := by
  intro l
  induction l with
  | nil => intro _; rfl
  | cons c rest ih =>
    intro h
    have hc : ¬ c = sep := fun e => h (by simp [e])
    simp only [pySplitChar, if_neg hc]
    rw [ih fun e => h (by simp [e])]

theorem pySplitChar_append_sep (sep : Char) :
    ∀ l : List Char, sep ∉ l → ∀ t,
      pySplitChar sep (l ++ sep :: t) = l :: pySplitChar sep t := by
  intro l
  induction l with
  | nil => intro _ t; simp [pySplitChar]
  | cons c rest ih =>
    intro h t
    have hc : ¬ c = sep := fun e => h (by simp [e])
    simp only [List.cons_append, pySplitChar, if_neg hc, List.append_eq]
    rw [ih (fun e => h (by simp [e])) t]

theorem pySplitChar_joinNL :
    ∀ ls : List (List Char), ls ≠ [] → (∀ l ∈ ls, ('\n' : Char) ∉ l) →
      pySplitChar '\n' (joinNL ls) = ls
  | [], h, _ => absurd rfl h
  | [l], _, hn => by
    show pySplitChar '\n' l = [l]
    exact pySplitChar_single '\n' l (hn l (by simp))
  | l1 :: l2 :: rest, _, hn => by
    show pySplitChar '\n' (l1 ++ '\n' :: joinNL (l2 :: rest)) = _
    rw [pySplitChar_append_sep '\n' l1 (hn l1 (by simp))]
    rw [pySplitChar_joinNL (l2 :: rest) (by simp)
      fun l h => hn l (by simp [h])]

/-! ## Lemmas for date-validation conditions -/

theorem parseTokens_none_iff (s : List Char) :
    parseTokens s = none ↔ claimFailCond s = true := by
  unfold parseTokens claimFailCond
  cases hsp : pySplit (pyStrip (stripGDot s)) with
  | nil => simp
  | cons t1 ts =>
    cases ts with
    | nil => simp
    | cons t2 ts2 =>
      cases ts2 with
      | nil => simp
      | cons t3 ts3 =>
        cases ts3 with
        | cons t4 ts4 => simp
        | nil =>
          cases h1 : pyInt t1 <;> cases h2 : monthLookup t2 <;>
            cases h3 : pyInt t3 <;> simp [h1, h2, h3]

theorem parseLocalizedDate_none_iff (s : List Char) :
    parseLocalizedDate s = none ↔
      (claimFailCond s = true ∨ rangeFailCond s = true) := by
  unfold parseLocalizedDate rangeFailCond
  rw [← parseTokens_none_iff]
  cases hp : parseTokens s with
  | none => simp
  | some t =>
    obtain ⟨d, m, y⟩ := t
    cases hv : validDate y m d <;> simp [hv]

/-! ## Claims -/

/-- C1: the required round trip is broken in the code.  The parser
accepts `"5 марта 2024 г."` as 5 March 2024, but formatting that date
with `strftime('%d %B %Y г.')` — the program never changes CPython's
default C locale — produces `"05 March 2024 г."`: the day is zero-padded
and the month name is English, which the Russian-only `month_names`
table rejects.  Consequently no formatted date re-parses at all, even
though the program's own new-post flow (line 348) feeds exactly these
formatted strings to `add_post`'s parser (line 350). -/
theorem claim_C1_roundtrip_code_bug :
    (parseLocalizedDate "5 марта 2024 г.".data = some ⟨2024, 3, 5⟩ ∧
     formatLocalizedDate ⟨2024, 3, 5⟩ = "05 March 2024 г.".data ∧
     formatLocalizedDate ⟨2024, 3, 5⟩ ≠ "5 марта 2024 г.".data ∧
     parseLocalizedDate (formatLocalizedDate ⟨2024, 3, 5⟩) = none) ∧
    (∀ dt : PDate, dt.valid = true →
      parseLocalizedDate (formatLocalizedDate dt) = none) :=
  ⟨⟨by decide, by decide, by decide, by decide⟩, format_no_reparse⟩

/-- C1, witness: the universal no-reparse part exercised at the valid
date 5 March 2024. -/
theorem claim_C1_roundtrip_code_bug_witness :
    PDate.valid ⟨2024, 3, 5⟩ = true ∧
    parseLocalizedDate (formatLocalizedDate ⟨2024, 3, 5⟩) = none :=
  ⟨by decide, claim_C1_roundtrip_code_bug.2 ⟨2024, 3, 5⟩ (by decide)⟩

/-- C3, counterexample: `"32 января 2024 г."` satisfies none of the three
failure conditions the claim lists (3 tokens, integer day and year, known
month), yet insert-time date parsing still fails, because
`datetime(2024, 1, 32)` rejects the out-of-range day. -/
theorem claim_C3_validation_counterexample :
    claimFailCond "32 января 2024 г.".data = false ∧
    parseLocalizedDate "32 января 2024 г.".data = none :=
  ⟨by decide, by decide⟩

/-- C3, amended: insert-time date parsing fails exactly when the claimed
token-level conditions hold — token count ≠ 3, non-integer day or year,
unknown month — or additionally when the three tokens do not form a valid
calendar date (`datetime` range check); the claim's examples `"15 2024"`
and `"15 Marchember 2024"` do fail. -/
theorem claim_C3_validation_amended :
    (∀ s : List Char, parseLocalizedDate s = none ↔
      (claimFailCond s = true ∨ rangeFailCond s = true)) ∧
    parseLocalizedDate "15 2024".data = none ∧
    parseLocalizedDate "15 Marchember 2024".data = none :=
  ⟨parseLocalizedDate_none_iff, by decide, by decide⟩

/-- C4, counterexample: a successful `add_post` returns the constant
`True`, not the newly assigned id: two stores whose next ids differ (1
and 5) both make `add_post` return `True`, while the inserted rows get
the distinct ids 1 and 5 — so the return value is not the new id. -/
theorem claim_C4_returns_id_counterexample :
    (add_post ⟨[], 1⟩ "15 марта 2024 г.".data [] [] [] [] [] [] [] [] []).1
      = true ∧
    (add_post ⟨[], 5⟩ "15 марта 2024 г.".data [] [] [] [] [] [] [] [] []).1
      = true ∧
    (add_post ⟨[], 1⟩ "15 марта 2024 г.".data [] [] [] [] [] [] [] [] []).2.rows.map
      Row.id = [1] ∧
    (add_post ⟨[], 5⟩ "15 марта 2024 г.".data [] [] [] [] [] [] [] [] []).2.rows.map
      Row.id = [5] :=
  ⟨by decide, by decide, by decide, by decide⟩

/-- C4, amended: a successful `add_post` returns `True` (the new id is
only displayed for debugging); the inserted row does carry the newly
assigned id `nextId`, which is fresh, and the id counter advances. -/
theorem claim_C4_returns_id_amended (s : DB)
    (hWF : ∀ r ∈ s.rows, r.id < s.nextId)
    (a1 a2 a3 a4 a5 a6 a7 a8 a9 a10 : List Char) (dt : PDate)
    (hdate : parseLocalizedDate a1 = some dt) :
    (add_post s a1 a2 a3 a4 a5 a6 a7 a8 a9 a10).1 = true ∧
    (add_post s a1 a2 a3 a4 a5 a6 a7 a8 a9 a10).2.rows.map Row.id
      = s.rows.map Row.id ++ [s.nextId] ∧
    s.nextId ∉ s.rows.map Row.id ∧
    (add_post s a1 a2 a3 a4 a5 a6 a7 a8 a9 a10).2.nextId = s.nextId + 1 := by
  rw [add_post_success s a1 a2 a3 a4 a5 a6 a7 a8 a9 a10 dt hdate]
  refine ⟨rfl, by simp [newRow], ?_, rfl⟩
  intro hmem
  obtain ⟨r, hr, he⟩ := List.mem_map.mp hmem
  exact absurd he (Nat.ne_of_lt (hWF r hr))

/-- C4, witness for the amended theorem on a store with one existing row. -/
theorem claim_C4_returns_id_witness :
    (add_post dbLexDemo "15 марта 2024 г.".data [] [] [] [] [] [] [] [] []).1
      = true :=
  (claim_C4_returns_id_amended dbLexDemo (by decide)
    "15 марта 2024 г.".data [] [] [] [] [] [] [] [] [] ⟨2024, 3, 15⟩
    (by decide)).1

/-- C10: `add_post` never raises — it always returns a boolean — and it
returns `False` exactly when the date string fails validation, in which
case the store is left completely unchanged (validation happens before
any write). -/
theorem claim_C10_atomic_failure (s : DB)
    (a1 a2 a3 a4 a5 a6 a7 a8 a9 a10 : List Char) :
    ((add_post s a1 a2 a3 a4 a5 a6 a7 a8 a9 a10).1 = false ↔
      parseLocalizedDate a1 = none) ∧
    (parseLocalizedDate a1 = none →
      add_post s a1 a2 a3 a4 a5 a6 a7 a8 a9 a10 = (false, s)) := by
  constructor
  · cases hp : parseLocalizedDate a1 with
    | none => rw [add_post_fail s a1 a2 a3 a4 a5 a6 a7 a8 a9 a10 hp]; simp
    | some dt =>
      rw [add_post_success s a1 a2 a3 a4 a5 a6 a7 a8 a9 a10 dt hp]
      simp
  · intro hp
    exact add_post_fail s a1 a2 a3 a4 a5 a6 a7 a8 a9 a10 hp

/-- C10, witness: a two-token date fails validation and leaves the
two-row store untouched. -/
theorem claim_C10_atomic_failure_witness :
    add_post dbLexDemo "15 2024".data [] [] [] [] [] [] [] [] []
      = (false, dbLexDemo) :=
  (claim_C10_atomic_failure dbLexDemo
    "15 2024".data [] [] [] [] [] [] [] [] []).2 (by decide)

/-- C2: inserting a record with a valid date succeeds, and a subsequent
`load_data` is the old record set plus exactly one new record (the one
with the fresh id `nextId`), whose stored fields equal the supplied
inputs, whose `day_of_week` is the weekday label of the parsed date, and
whose `status` and `published` carry the two column defaults. -/
theorem claim_C2_insert_then_list (s : DB)
    (hWF : ∀ r ∈ s.rows, r.id < s.nextId)
    (a1 a2 a3 a4 a5 a6 a7 a8 a9 a10 : List Char) (dt : PDate)
    (hdate : parseLocalizedDate a1 = some dt) :
    (add_post s a1 a2 a3 a4 a5 a6 a7 a8 a9 a10).1 = true ∧
    List.Perm (load_data (add_post s a1 a2 a3 a4 a5 a6 a7 a8 a9 a10).2)
      (s.rows ++ [newRow s a1 a2 a3 a4 a5 a6 a7 a8 a9 a10 dt]) ∧
    (load_data (add_post s a1 a2 a3 a4 a5 a6 a7 a8 a9 a10).2).filter
        (fun r => r.id == s.nextId)
      = [newRow s a1 a2 a3 a4 a5 a6 a7 a8 a9 a10 dt] ∧
    (newRow s a1 a2 a3 a4 a5 a6 a7 a8 a9 a10 dt).id = s.nextId ∧
    (newRow s a1 a2 a3 a4 a5 a6 a7 a8 a9 a10 dt).date = a1 ∧
    (newRow s a1 a2 a3 a4 a5 a6 a7 a8 a9 a10 dt).time = a2 ∧
    (newRow s a1 a2 a3 a4 a5 a6 a7 a8 a9 a10 dt).title = a3 ∧
    (newRow s a1 a2 a3 a4 a5 a6 a7 a8 a9 a10 dt).content_type = a4 ∧
    (newRow s a1 a2 a3 a4 a5 a6 a7 a8 a9 a10 dt).format = a5 ∧
    (newRow s a1 a2 a3 a4 a5 a6 a7 a8 a9 a10 dt).rubrika = a6 ∧
    (newRow s a1 a2 a3 a4 a5 a6 a7 a8 a9 a10 dt).description = a7 ∧
    (newRow s a1 a2 a3 a4 a5 a6 a7 a8 a9 a10 dt).tz_text = a8 ∧
    (newRow s a1 a2 a3 a4 a5 a6 a7 a8 a9 a10 dt).tz_visual = a9 ∧
    (newRow s a1 a2 a3 a4 a5 a6 a7 a8 a9 a10 dt).deadline = a10 ∧
    (newRow s a1 a2 a3 a4 a5 a6 a7 a8 a9 a10 dt).day_of_week
      = weekdayLabel dt ∧
    (newRow s a1 a2 a3 a4 a5 a6 a7 a8 a9 a10 dt).status = "Не готов".data ∧
    (newRow s a1 a2 a3 a4 a5 a6 a7 a8 a9 a10 dt).published = "Нет".data := by
  rw [add_post_success s a1 a2 a3 a4 a5 a6 a7 a8 a9 a10 dt hdate]
  refine ⟨rfl, load_data_perm _, ?_, rfl, rfl, rfl, rfl, rfl, rfl, rfl, rfl,
    rfl, rfl, rfl, rfl, rfl, rfl⟩
  have hp := (load_data_perm
    ⟨s.rows ++ [newRow s a1 a2 a3 a4 a5 a6 a7 a8 a9 a10 dt], s.nextId + 1⟩).filter
    (fun r => r.id == s.nextId)
  have h0 : (s.rows ++ [newRow s a1 a2 a3 a4 a5 a6 a7 a8 a9 a10 dt]).filter
      (fun r => r.id == s.nextId)
      = [newRow s a1 a2 a3 a4 a5 a6 a7 a8 a9 a10 dt] := by
    rw [List.filter_append]
    have e1 : s.rows.filter (fun r => r.id == s.nextId) = [] := by
      rw [List.filter_eq_nil_iff]
      intro r hr
      simp [Nat.ne_of_lt (hWF r hr)]
    have e2 : [newRow s a1 a2 a3 a4 a5 a6 a7 a8 a9 a10 dt].filter
        (fun r => r.id == s.nextId)
        = [newRow s a1 a2 a3 a4 a5 a6 a7 a8 a9 a10 dt] := by
      simp [newRow]
    rw [e1, e2]
    rfl
  rw [h0] at hp
  exact List.perm_singleton.mp hp

/-- C2, witness on the empty freshly initialized store with the date
15 March 2024. -/
theorem claim_C2_insert_then_list_witness :
    (add_post (init_db none) "15 марта 2024 г.".data "10:00".data "T".data
      [] [] [] [] [] [] []).1 = true :=
  (claim_C2_insert_then_list (init_db none) (by simp [init_db])
    "15 марта 2024 г.".data "10:00".data "T".data [] [] [] [] [] [] []
    ⟨2024, 3, 15⟩ (by decide)).1

/-- C7: for an id absent from the store, `delete_post`, `update_post`
(with recognized field names), `update_status` and `update_published` are
error-free no-ops; and for any id, a record survives `delete_post` into
`load_data` exactly when it was present and its id differs from the
deleted one — so deleting a present id removes exactly that row. -/
theorem claim_C7_missing_noop_delete (s : DB) (row_id : Nat) :
    ((∀ r ∈ s.rows, r.id ≠ row_id) →
      delete_post s row_id = s ∧
      (∀ upd, (∀ kv ∈ upd, (colMap kv.1).isSome = true) →
        update_post s row_id upd = some s) ∧
      (∀ v, update_status s row_id v = s) ∧
      (∀ v, update_published s row_id v = s)) ∧
    (∀ r, r ∈ load_data (delete_post s row_id) ↔
      (r ∈ s.rows ∧ r.id ≠ row_id)) := by
  constructor
  · intro hmiss
    exact ⟨delete_post_missing s row_id hmiss,
      fun upd hk => update_post_missing s row_id upd hmiss hk,
      fun v => update_status_missing s row_id v hmiss,
      fun v => update_published_missing s row_id v hmiss⟩
  · intro r
    rw [(load_data_perm (delete_post s row_id)).mem_iff]
    show r ∈ s.rows.filter (fun r => r.id != row_id) ↔ _
    rw [List.mem_filter]
    simp [bne_iff_ne]

/-- C7, witness: deleting the absent id 99 leaves the two-row store
unchanged. -/
theorem claim_C7_missing_noop_delete_witness :
    delete_post dbLexDemo 99 = dbLexDemo :=
  ((claim_C7_missing_noop_delete dbLexDemo 99).1 (by decide)).1

/-- C8: `load_data` returns all stored records sorted ascending by the
`(date, time)` key compared as stored strings (lexicographically); on the
two demonstration rows this order disagrees with chronological order —
the row dated 2 March 2024 sorts before the row dated 10 January 2024
because `"02..." < "10..."` as strings. -/
theorem claim_C8_listAll_lexicographic :
    (∀ s : DB, List.Perm (load_data s) s.rows ∧ (load_data s).Sorted rowle) ∧
    load_data dbLexDemo = [rowMar2, rowJan10] ∧
    parseLocalizedDate rowMar2.date = some ⟨2024, 3, 2⟩ ∧
    parseLocalizedDate rowJan10.date = some ⟨2024, 1, 10⟩ ∧
    dateLt ⟨2024, 1, 10⟩ ⟨2024, 3, 2⟩ = true :=
  ⟨fun s => ⟨load_data_perm s, load_data_sorted s⟩,
    by decide, by decide, by decide, by decide⟩

/-- C5: in every store state reachable by the program's operations
(initialize, insert, the edit-form update, the status and published
toggles, delete), every record's `status` is one of the two enumerated
values and every record's `published` is one of its two enumerated
values. -/
theorem claim_C5_enum_invariant (s : DB) (h : Reachable s) : StoreInv s := by
  induction h with
  | init => intro r hr; simp [init_db] at hr
  | step h1 hst ih =>
    rename_i sPrev sCur
    cases hst with
    | init => exact ih
    | insert a1 a2 a3 a4 a5 a6 a7 a8 a9 a10 =>
      cases hp : parseLocalizedDate a1 with
      | none =>
        rw [add_post_fail sPrev a1 a2 a3 a4 a5 a6 a7 a8 a9 a10 hp]
        exact ih
      | some dt =>
        rw [add_post_success sPrev a1 a2 a3 a4 a5 a6 a7 a8 a9 a10 dt hp]
        intro r hr
        rcases List.mem_append.mp hr with hr | hr
        · exact ih r hr
        · simp only [List.mem_singleton] at hr
          subst hr
          exact ⟨Or.inl rfl, Or.inl rfl⟩
    | update s2 row_id upd hkeys happ =>
      intro r hr
      unfold update_post at happ
      cases ha : applyUpdates row_id upd sPrev.rows with
      | none => rw [ha] at happ; cases happ
      | some rows2 =>
        rw [ha] at happ
        have h2 : some ({ sPrev with rows := rows2 } : DB) = some sCur := happ
        injection h2 with h3
        subst h3
        obtain ⟨r0, hr0, e1, e2⟩ :=
          applyUpdates_status_pub row_id upd sPrev.rows rows2 hkeys ha r hr
        obtain ⟨hs, hp2⟩ := ih r0 hr0
        refine ⟨?_, ?_⟩
        · rw [e1]; exact hs
        · rw [e2]; exact hp2
    | setStatus row_id b =>
      intro r hr
      have hr2 : r ∈ sPrev.rows.map fun r0 =>
          if r0.id = row_id then { r0 with status := statusToggle b } else r0 := hr
      obtain ⟨r0, hr0, rfl⟩ := List.mem_map.mp hr2
      by_cases hid : r0.id = row_id
      · rw [if_pos hid]
        refine ⟨?_, (ih r0 hr0).2⟩
        cases b
        · exact Or.inl rfl
        · exact Or.inr rfl
      · rw [if_neg hid]
        exact ih r0 hr0
    | setPublished row_id b =>
      intro r hr
      have hr2 : r ∈ sPrev.rows.map fun r0 =>
          if r0.id = row_id then { r0 with published := publishedToggle b } else r0 := hr
      obtain ⟨r0, hr0, rfl⟩ := List.mem_map.mp hr2
      by_cases hid : r0.id = row_id
      · rw [if_pos hid]
        refine ⟨(ih r0 hr0).1, ?_⟩
        cases b
        · exact Or.inl rfl
        · exact Or.inr rfl
      · rw [if_neg hid]
        exact ih r0 hr0
    | del row_id =>
      intro r hr
      exact ih r (List.mem_of_mem_filter hr)

/-- C5, witness: the invariant holds in the reachable state obtained by
initializing a fresh store and inserting one record. -/
theorem claim_C5_enum_invariant_witness :
    StoreInv (add_post (init_db none) "15 марта 2024 г.".data "10:00".data
      "T".data [] [] [] [] [] [] []).2 :=
  claim_C5_enum_invariant _
    (Reachable.step Reachable.init (Step.insert _ _ _ _ _ _ _ _ _ _ _))

/-- C6: a partial update of the title via `update_post` changes only the
`title` field of the row with the given id, leaving every other field of
that row and every other row unchanged; likewise `update_status` with
the ready value changes only that row's `status`. -/
theorem claim_C6_update_frame (s : DB) (row_id : Nat) (v : List Char) :
    (update_post s row_id [("Название".data, v)] =
      some { s with rows := s.rows.map fun r =>
              if r.id = row_id then { r with title := v } else r }) ∧
    List.Forall₂ (fun r r' =>
        r'.id = r.id ∧ r'.date = r.date ∧ r'.day_of_week = r.day_of_week ∧
        r'.time = r.time ∧ r'.content_type = r.content_type ∧
        r'.format = r.format ∧ r'.rubrika = r.rubrika ∧
        r'.description = r.description ∧ r'.tz_text = r.tz_text ∧
        r'.tz_visual = r.tz_visual ∧ r'.deadline = r.deadline ∧
        r'.status = r.status ∧ r'.published = r.published ∧
        (r.id = row_id → r'.title = v) ∧ (r.id ≠ row_id → r'.title = r.title))
      s.rows
      (s.rows.map fun r => if r.id = row_id then { r with title := v } else r) ∧
    List.Forall₂ (fun r r' =>
        r'.id = r.id ∧ r'.date = r.date ∧ r'.day_of_week = r.day_of_week ∧
        r'.time = r.time ∧ r'.title = r.title ∧
        r'.content_type = r.content_type ∧ r'.format = r.format ∧
        r'.rubrika = r.rubrika ∧ r'.description = r.description ∧
        r'.tz_text = r.tz_text ∧ r'.tz_visual = r.tz_visual ∧
        r'.deadline = r.deadline ∧ r'.published = r.published ∧
        (r.id = row_id → r'.status = "Готов".data) ∧
        (r.id ≠ row_id → r'.status = r.status))
      s.rows (update_status s row_id "Готов".data).rows := by
  refine ⟨rfl, ?_, ?_⟩
  · apply forall₂_map_self
    intro a
    by_cases hid : a.id = row_id
    · rw [if_pos hid]
      exact ⟨rfl, rfl, rfl, rfl, rfl, rfl, rfl, rfl, rfl, rfl, rfl, rfl, rfl,
        fun _ => rfl, fun hne => absurd hid hne⟩
    · rw [if_neg hid]
      exact ⟨rfl, rfl, rfl, rfl, rfl, rfl, rfl, rfl, rfl, rfl, rfl, rfl, rfl,
        fun he => absurd he hid, fun _ => rfl⟩
  · show List.Forall₂ _ s.rows (s.rows.map fun r =>
      if r.id = row_id then { r with status := "Готов".data } else r)
    apply forall₂_map_self
    intro a
    by_cases hid : a.id = row_id
    · rw [if_pos hid]
      exact ⟨rfl, rfl, rfl, rfl, rfl, rfl, rfl, rfl, rfl, rfl, rfl, rfl, rfl,
        fun _ => rfl, fun hne => absurd hid hne⟩
    · rw [if_neg hid]
      exact ⟨rfl, rfl, rfl, rfl, rfl, rfl, rfl, rfl, rfl, rfl, rfl, rfl, rfl,
        fun he => absurd he hid, fun _ => rfl⟩

/-- C6, witness: the title-only update applied to the two-row store at
id 1. -/
theorem claim_C6_update_frame_witness :
    update_post dbLexDemo 1 [("Название".data, "New".data)] =
      some { dbLexDemo with rows := dbLexDemo.rows.map fun r =>
              if r.id = 1 then { r with title := "New".data } else r } :=
  (claim_C6_update_frame dbLexDemo 1 "New".data).1

/-- C9: the idea generator is a total function (no exception escapes):
with no client configured it returns the fixed unavailability string;
when the remote call raises, it returns the error-describing string; and
when the remote call succeeds, its output consists of at most 5
newline-separated non-empty lines. -/
theorem claim_C9_generator_total
    (remote : List Char → Except (List Char) (List Char))
    (topic : List Char) :
    generate_ideas false remote topic = unavailableMsg ∧
    (∀ e, remote (promptOf topic) = Except.error e →
      generate_ideas true remote topic = "Ошибка HF: ".data ++ e ++ ".".data) ∧
    (∀ resp, remote (promptOf topic) = Except.ok resp →
      (pySplitChar '\n' (generate_ideas true remote topic)).length ≤ 5 ∧
      ∀ l ∈ pySplitChar '\n' (generate_ideas true remote topic), l ≠ []) := by
  refine ⟨rfl, ?_, ?_⟩
  · intro e he
    unfold generate_ideas
    rw [he]
    rfl
  · intro resp hok
    have hg : generate_ideas true remote topic =
        if ideas_list_of (ideas_text_of (promptOf topic) resp) = []
        then "Ошибка генерации.".data
        else joinNL (ideas_list_of (ideas_text_of (promptOf topic) resp)) := by
      unfold generate_ideas
      rw [hok]
      rfl
    have hmem : ∀ t ∈ ideas_list_of (ideas_text_of (promptOf topic) resp),
        t ≠ [] ∧ ('\n' : Char) ∉ t := by
      intro t ht
      unfold ideas_list_of at ht
      have ht2 := List.take_subset 5 _ ht
      obtain ⟨htm, htp⟩ := List.mem_filter.mp ht2
      obtain ⟨t0, ht0, rfl⟩ := List.mem_map.mp htm
      refine ⟨by simpa using htp, ?_⟩
      intro hnl
      exact pySplitChar_no_sep '\n' _ t0 ht0 (mem_pyStrip hnl)
    by_cases hL : ideas_list_of (ideas_text_of (promptOf topic) resp) = []
    · rw [hg, if_pos hL]
      exact ⟨by decide, by decide⟩
    · rw [hg, if_neg hL]
      rw [pySplitChar_joinNL _ hL fun l h => (hmem l h).2]
      constructor
      · unfold ideas_list_of
        exact List.length_take_le 5 _
      · intro l hl
        exact (hmem l hl).1

/-- C9, witness: with a client configured and a remote call that raises
with message `"boom"`, the generator returns the error-describing string
rather than raising. -/
theorem claim_C9_generator_total_witness :
    generate_ideas true (fun _ => Except.error "boom".data) "x".data
      = "Ошибка HF: ".data ++ "boom".data ++ ".".data :=
  (claim_C9_generator_total (fun _ => Except.error "boom".data)
    "x".data).2.1 "boom".data rfl

end TgPlanner
